import Mathlib

/-!
Shallow embedding of the beer-testing repository (src/main.go).

Modelling conventions:
* `float64` prices and volumes are modelled as exact rationals (`Rat`); the
  source never rounds, and summation follows insertion order exactly as the
  Go loop does.
* Go pointers (`*Cart`, `*Beer`) are modelled as `Option`-wrapped values where
  a nil pointer is observable (messages on the channel, the subscription's
  cart field); a nil pointer is `none`.
* The untyped channel payload `interface{}` is modelled by the inductive
  `Msg`; the runtime type assertion `msg.(*Cart)` is `asCart`.
* The consumer loop `startOrderHandler` is modelled as a function over the
  finite list of messages delivered before the channel is closed; the end of
  the list is the channel close.
* The producer loop `startSubscriptionTimer` is modelled as a function over a
  finite list of `ProdEvent`s: `tick` is a ticker firing, `cancel` is
  `ctx.Done()`, and `setCart`/`setInterval` are the mutex-serialised calls of
  the external updater interleaved with the loop. A channel send is modelled
  as appending to the list of emitted messages.
* Calls to the `logrus` logger are modelled as `LogEvent` values collected in
  a list.
-/

namespace BeerShop

/-- `Beer` from src/main.go: brand, name, ounces. -/
structure Beer where
  Brand : String
  Name : String
  Ounces : Rat
deriving DecidableEq

/-- `Case` from src/main.go: a case of beer in the cart. The `Beer` field is a
`*Beer` pointer, modelled as `Option Beer`. -/
structure Case where
  Count : Int
  beer : Option Beer
  Price : Rat
deriving DecidableEq

/-- `Cart` from src/main.go: `Cases []*Case`. The claims never involve nil
case pointers, so the elements are modelled as values. -/
structure Cart where
  Cases : List Case
deriving DecidableEq

/-- `NewCart` from src/main.go: initializes an empty shopping cart. -/
def NewCart : Cart := ⟨[]⟩

/-- `Cart.AddCase` from src/main.go:
`c.Cases = append(c.Cases, beerCase)`. -/
def Cart.AddCase (c : Cart) (beerCase : Case) : Cart :=
  ⟨c.Cases ++ [beerCase]⟩

/-- `Cart.Subtotal` from src/main.go: a running sum, in insertion order, of
the `Price` field of each case. -/
def Cart.Subtotal (c : Cart) : Rat :=
  c.Cases.foldl (fun subtotal beerCase => subtotal + beerCase.Price) 0

/-- `FixtureBeer` from src/main.go. -/
def FixtureBeer (brand : String) (name : String) (ounces : Rat) : Beer :=
  ⟨brand, name, ounces⟩

/-- `FixtureCase` from src/main.go. -/
def FixtureCase (count : Int) (b : Option Beer) (price : Rat) : Case :=
  ⟨count, b, price⟩

/-- `FixtureCart` from src/main.go. -/
def FixtureCart : Cart :=
  ⟨[FixtureCase 4 (some (FixtureBeer "Duvel" "Tripel Hop" 11)) 14]⟩

/-- A cart built from `NewCart` by a sequence of `AddCase` calls, used to
state the spec's "for any sequence of AddCase calls" properties. -/
def buildCart (items : List Case) : Cart :=
  items.foldl Cart.AddCase NewCart

lemma foldl_addCase_cases (items : List Case) (c0 : Cart) :
    (items.foldl Cart.AddCase c0).Cases = c0.Cases ++ items := by
  induction items generalizing c0 with
  | nil => simp
  | cons k rest ih => simp [ih, Cart.AddCase]

lemma buildCart_cases (items : List Case) : (buildCart items).Cases = items := by
  simp [buildCart, foldl_addCase_cases, NewCart]

lemma foldl_price (l : List Case) (a : Rat) :
    l.foldl (fun subtotal beerCase => subtotal + beerCase.Price) a
      = a + (l.map Case.Price).sum := by
  induction l generalizing a with
  | nil => simp
  | cons k rest ih => simp [ih, add_assoc]

lemma subtotal_eq_sum (c : Cart) : c.Subtotal = (c.Cases.map Case.Price).sum := by
  simp [Cart.Subtotal, foldl_price]

/-- Claim C5: for every cart built by any sequence of `AddCase` calls,
`Subtotal` returns exactly the sum of the `Price` field of each contained
case; the result is unchanged if every case's `Count` and beer reference are
erased, so it is independent of those fields; negative prices are accepted
(the spec's example `-14, 24 → 10`); and the empty cart's subtotal is
exactly `0`. -/
theorem subtotal_sums_prices :
    ∀ items : List Case,
      (buildCart items).Subtotal = (items.map Case.Price).sum
      ∧ (buildCart (items.map (fun k => ⟨0, none, k.Price⟩))).Subtotal
          = (buildCart items).Subtotal
      ∧ (buildCart [FixtureCase 4 (some (FixtureBeer "Duvel" "Tripel Hop" 11)) (-14),
          FixtureCase 30 (some (FixtureBeer "Labatt" "Blue Light" 12)) 24]).Subtotal = 10
      ∧ NewCart.Subtotal = 0 := by
  intro items
  refine ⟨by simp [subtotal_eq_sum, buildCart_cases], ?_, ?_, rfl⟩
  · simp [subtotal_eq_sum, buildCart_cases, Function.comp_def]
  · rw [subtotal_eq_sum, buildCart_cases]
    norm_num [FixtureCase]

/-- Claim C6: `AddCase` and `Subtotal` are total over every cart state:
`AddCase` always appends its item at the end of the sequence, and `Subtotal`
always returns a value — the sum of the prices — including on the empty
cart, where it returns `0`. -/
theorem addCase_subtotal_total :
    ∀ (c : Cart) (k : Case),
      (c.AddCase k).Cases = c.Cases ++ [k]
      ∧ c.Subtotal = (c.Cases.map Case.Price).sum
      ∧ NewCart.Subtotal = 0 := by
  intro c k
  exact ⟨rfl, subtotal_eq_sum c, rfl⟩

/-- A payload carried on the `chan interface{}` message channel. The channel
is untyped in the source; these are the payload kinds the repository actually
sends (a `*Cart` pointer — possibly nil — or, malformed, a bare `*Case` or
`*Beer`). -/
inductive Msg where
  | ofCart (c : Option Cart)
  | ofCase (k : Case)
  | ofBeer (b : Beer)
deriving DecidableEq

/-- The runtime type assertion `cart, ok := msg.(*Cart)` from
`startOrderHandler`: it succeeds exactly when the payload's dynamic type is
`*Cart`, regardless of whether the pointer is nil. -/
def asCart : Msg → Option (Option Cart)
  | .ofCart c => some c
  | _ => none

/-- A record emitted by the `logrus` logger, one constructor per logging call
site in src/main.go. -/
inductive LogEvent where
  | debugChannelClosed
  | errorPlacingOrder (e : String)
  | infoPlacedOrder
  | errorInvalidMessage (m : Msg)
deriving DecidableEq

/-- `OrderHandler` from src/main.go. The message channel is passed to the
loop as an explicit list of delivered messages. -/
structure OrderHandler where
  ProcessedOrders : List (Option Cart)
deriving DecidableEq

/-- `OrderHandler.PlaceOrder` from src/main.go: appends the cart to
`ProcessedOrders` and returns `nil` error. -/
def OrderHandler.PlaceOrder (o : OrderHandler) (cart : Option Cart) :
    OrderHandler × Option String :=
  (⟨o.ProcessedOrders ++ [cart]⟩, none)

/-- One iteration of the `startOrderHandler` loop body on a received message:
a `*Cart` payload is placed via `PlaceOrder` (an error would be logged and
skipped); any other payload is logged as an invalid message and dropped. -/
def orderHandlerStep (o : OrderHandler) (m : Msg) : OrderHandler × LogEvent :=
  match asCart m with
  | some cart =>
    match o.PlaceOrder cart with
    | (o2, some e) => (o2, .errorPlacingOrder e)
    | (o2, none) => (o2, .infoPlacedOrder)
  | none => (o, .errorInvalidMessage m)

/-- `startOrderHandler` from src/main.go, run over the finite list of
messages delivered before the channel is closed; on close (`ok == false`) it
logs and returns. Returns the final handler state and the log trace. -/
def startOrderHandler (o : OrderHandler) (msgs : List Msg) :
    OrderHandler × List LogEvent :=
  match msgs with
  | [] => (o, [.debugChannelClosed])
  | m :: rest =>
    let s := orderHandlerStep o m
    let r := startOrderHandler s.1 rest
    (r.1, s.2 :: r.2)

/-- The log event `startOrderHandler` produces for one message (the
`PlaceOrder` error branch is unreachable since `PlaceOrder` returns `nil`). -/
def handlerEvent (m : Msg) : LogEvent :=
  match asCart m with
  | some _ => .infoPlacedOrder
  | none => .errorInvalidMessage m

lemma orderHandlerStep_orders (o : OrderHandler) (m : Msg) :
    (orderHandlerStep o m).1.ProcessedOrders
      = o.ProcessedOrders ++ (asCart m).toList := by
  cases m <;> simp [orderHandlerStep, asCart, OrderHandler.PlaceOrder]

lemma orderHandlerStep_event (o : OrderHandler) (m : Msg) :
    (orderHandlerStep o m).2 = handlerEvent m := by
  cases m <;> simp [orderHandlerStep, asCart, OrderHandler.PlaceOrder, handlerEvent]

lemma startOrderHandler_orders (o : OrderHandler) (msgs : List Msg) :
    (startOrderHandler o msgs).1.ProcessedOrders
      = o.ProcessedOrders ++ msgs.filterMap asCart := by
  induction msgs generalizing o with
  | nil => simp [startOrderHandler]
  | cons m rest ih =>
    cases m <;>
      simp [startOrderHandler, ih, orderHandlerStep, asCart, OrderHandler.PlaceOrder]

lemma startOrderHandler_events (o : OrderHandler) (msgs : List Msg) :
    (startOrderHandler o msgs).2
      = msgs.map handlerEvent ++ [LogEvent.debugChannelClosed] := by
  induction msgs generalizing o with
  | nil => simp [startOrderHandler]
  | cons m rest ih => simp [startOrderHandler, ih, orderHandlerStep_event]

/-- Claim C1: the consumer loop, started with an empty processed-orders log
and run over any finite sequence of delivered messages, appends exactly the
`*Cart` payloads to the log in delivery order; its log trace has exactly one
entry per message followed by the channel-closed entry, so a malformed
message never terminates the loop and the loop ends exactly at channel
close. In particular two valid carts grow the log by exactly 2, a lone
malformed `Case` leaves it empty, and a valid cart after a malformed message
is still processed. -/
theorem startOrderHandler_consumer_loop :
    ∀ msgs : List Msg,
      (startOrderHandler ⟨[]⟩ msgs).1.ProcessedOrders = msgs.filterMap asCart
      ∧ (startOrderHandler ⟨[]⟩ msgs).2
          = msgs.map handlerEvent ++ [LogEvent.debugChannelClosed]
      ∧ (∀ c1 c2 : Option Cart,
          (startOrderHandler ⟨[]⟩ [Msg.ofCart c1, Msg.ofCart c2]).1.ProcessedOrders.length = 2)
      ∧ (∀ k : Case, (startOrderHandler ⟨[]⟩ [Msg.ofCase k]).1.ProcessedOrders = [])
      ∧ (∀ (k : Case) (c : Option Cart),
          (startOrderHandler ⟨[]⟩ [Msg.ofCase k, Msg.ofCart c]).1.ProcessedOrders = [c]) := by
  intro msgs
  refine ⟨by simp [startOrderHandler_orders], startOrderHandler_events _ msgs, ?_, ?_, ?_⟩
  · intro c1 c2; simp [startOrderHandler_orders, asCart]
  · intro k; simp [startOrderHandler_orders, asCart]
  · intro k c; simp [startOrderHandler_orders, asCart]

/-- Claim C8: the processed-orders log is append-only: each loop iteration
either leaves the log unchanged or appends exactly one cart at the end,
`PlaceOrder` always reports success (`nil` error), and after any run the
initial log is an unchanged prefix of the final log — no entry is modified,
removed or reordered. -/
theorem processedOrders_append_only :
    (∀ (o : OrderHandler) (m : Msg),
      (orderHandlerStep o m).1.ProcessedOrders = o.ProcessedOrders
      ∨ ∃ c, (orderHandlerStep o m).1.ProcessedOrders = o.ProcessedOrders ++ [c])
    ∧ (∀ (o : OrderHandler) (c : Option Cart), (o.PlaceOrder c).2 = none)
    ∧ (∀ (o : OrderHandler) (msgs : List Msg),
        ∃ t, (startOrderHandler o msgs).1.ProcessedOrders = o.ProcessedOrders ++ t) := by
  refine ⟨?_, fun o c => rfl, ?_⟩
  · intro o m
    cases m with
    | ofCart c => exact Or.inr ⟨c, by simp [orderHandlerStep_orders, asCart]⟩
    | ofCase k => exact Or.inl (by simp [orderHandlerStep_orders, asCart])
    | ofBeer b => exact Or.inl (by simp [orderHandlerStep_orders, asCart])
  · intro o msgs
    exact ⟨msgs.filterMap asCart, startOrderHandler_orders o msgs⟩

/-- Claim C10: a nil `*Cart` pointer sent on the channel passes the
`msg.(*Cart)` type assertion — validity depends only on the payload's
dynamic type, for every cart reference including nil — and the nil cart is
appended to the processed-orders log. -/
theorem nil_cart_is_valid_order :
    ∀ (o : OrderHandler) (c : Option Cart),
      asCart (Msg.ofCart none) = some none
      ∧ (startOrderHandler o [Msg.ofCart none]).1.ProcessedOrders
          = o.ProcessedOrders ++ [none]
      ∧ asCart (Msg.ofCart c) = some c := by
  intro o c
  exact ⟨rfl, by simp [startOrderHandler_orders, asCart], rfl⟩

/-- A `[]byte` response body, modelled as a byte string. -/
abbrev Bytes := String

/-- A `float64` value: a finite value (modelled as an exact rational) or one
of the non-finite values. `ProcessPayment` takes such a total. -/
inductive F64 where
  | finite (q : Rat)
  | nan
  | posInf
  | negInf
deriving DecidableEq

/-- `json.Marshal` applied to a `float64`, as in `ProcessPayment`: finite
values encode to a JSON number with no error; per the `encoding/json`
documentation, NaN and the infinities return nil bytes and an
`UnsupportedValueError`. -/
def jsonMarshal : F64 → Bytes × Option String
  | .finite q => (toString q, none)
  | .nan => ("", some "json: unsupported value: NaN")
  | .posInf => ("", some "json: unsupported value: +Inf")
  | .negInf => ("", some "json: unsupported value: -Inf")

/-- The outcome of the `http.Post` call inside `ProcessPayment`: either the
request itself fails with a transport error, or a response arrives with a
status code and a body. -/
inductive HTTPResult where
  | transportError (e : String)
  | response (statusCode : Nat) (body : Bytes)
deriving DecidableEq

/-- The error values `ProcessPayment` can return: the transport error from
`http.Post` propagated as-is, or the `fmt.Errorf` value built from the
status code. -/
inductive PaymentError where
  | transport (e : String)
  | serverError (statusCode : Nat)
deriving DecidableEq

/-- The message text of a `ProcessPayment` error
(`fmt.Errorf("payment server error: %d", resp.StatusCode)`). -/
def PaymentError.message : PaymentError → String
  | .transport e => e
  | .serverError code => "payment server error: " ++ toString code

/-- `ProcessPayment` from src/main.go, with the outcome of the external
`http.Post` call passed as an explicit input. Note the source line
`b, _ := json.Marshal(total)`: the marshal error is discarded, so the result
does not depend on it. Status ≥ 400 yields a nil body and a server error;
otherwise the body bytes are returned with no error. -/
def ProcessPayment (total : F64) (post : HTTPResult) :
    Option Bytes × Option PaymentError :=
  let _b := (jsonMarshal total).1
  match post with
  | .transportError e => (none, some (.transport e))
  | .response code body =>
    if 400 ≤ code then (none, some (.serverError code)) else (some body, none)

/-- The log events produced by a `ProcessPayment` call: the source contains
no logger invocation anywhere in the function, so the trace is empty. -/
def processPaymentLogs (_total : F64) (_post : HTTPResult) : List LogEvent :=
  []

/-- Claim C4: `ProcessPayment` returns the transport error as-is with a nil
body when the request fails; a nil body and a distinct error carrying the
numeric status code (message "payment server error: <code>") when the status
is ≥ 400; and the body bytes as-is with no error when the status is
below 400. -/
theorem processPayment_result_spec :
    ∀ total : F64,
      (∀ e, ProcessPayment total (HTTPResult.transportError e)
          = (none, some (PaymentError.transport e)))
      ∧ (∀ (code : Nat) (body : Bytes), 400 ≤ code →
          ProcessPayment total (HTTPResult.response code body)
              = (none, some (PaymentError.serverError code))
          ∧ (PaymentError.serverError code).message
              = "payment server error: " ++ toString code)
      ∧ (∀ (code : Nat) (body : Bytes), code < 400 →
          ProcessPayment total (HTTPResult.response code body) = (some body, none)) := by
  intro total
  refine ⟨fun e => rfl, ?_, ?_⟩
  · intro code body h
    exact ⟨by simp [ProcessPayment, h], rfl⟩
  · intro code body h
    simp [ProcessPayment, Nat.not_le.mpr h]

/-- Witness for C4 at the spec's concrete examples: status 500 yields a nil
body and the error carrying 500; status 200 with body "OK" yields body "OK"
and no error. -/
theorem processPayment_result_spec_witness :
    ProcessPayment (F64.finite 21) (HTTPResult.response 500 "")
        = (none, some (PaymentError.serverError 500))
    ∧ ProcessPayment (F64.finite 21) (HTTPResult.response 200 "OK")
        = (some "OK", none) :=
  ⟨((processPayment_result_spec (F64.finite 21)).2.1 500 "" (by decide)).1,
    (processPayment_result_spec (F64.finite 21)).2.2 200 "OK" (by decide)⟩

/-- Counterexample to claim C9 as stated: it is not true that every error
value arising in the program is surfaced or logged. In `ProcessPayment`,
`b, _ := json.Marshal(total)` discards the marshal error: for a non-finite
total (NaN), the marshal error arises, yet the call returns no error to the
caller and writes no log record. -/
theorem processPayment_swallows_marshal_error :
    ¬ (∀ (total : F64) (post : HTTPResult),
        (jsonMarshal total).2 = none
        ∨ (∃ e, (ProcessPayment total post).2 = some e)
        ∨ processPaymentLogs total post ≠ []) := by
  intro h
  rcases h F64.nan (HTTPResult.response 200 "OK") with h1 | ⟨e, h2⟩ | h3
  · simp [jsonMarshal] at h1
  · simp [ProcessPayment] at h2
  · exact h3 rfl

/-- Claim C9 (amended): every error arising in the consumer loop is logged
before the loop continues — an invalid message is always logged, and a
`PlaceOrder` error would be logged (that branch is unreachable since
`PlaceOrder` always returns `nil`); `ProcessPayment` surfaces every
transport error and every status ≥ 400 to the caller; but the `json.Marshal`
error inside `ProcessPayment` (possible only for a non-finite total) is
discarded without being surfaced or logged — the result is independent of
the total. -/
theorem error_logging_policy :
    (∀ (o : OrderHandler) (msgs : List Msg) (m : Msg),
        m ∈ msgs → asCart m = none →
        LogEvent.errorInvalidMessage m ∈ (startOrderHandler o msgs).2)
    ∧ (∀ (o : OrderHandler) (m : Msg) (cart : Option Cart) (e : String),
        asCart m = some cart → (o.PlaceOrder cart).2 = some e →
        (orderHandlerStep o m).2 = LogEvent.errorPlacingOrder e)
    ∧ (∀ (total : F64) (e : String),
        (ProcessPayment total (HTTPResult.transportError e)).2
            = some (PaymentError.transport e))
    ∧ (∀ (total : F64) (code : Nat) (body : Bytes), 400 ≤ code →
        (ProcessPayment total (HTTPResult.response code body)).2
            = some (PaymentError.serverError code))
    ∧ (∀ (total total2 : F64) (post : HTTPResult),
        processPaymentLogs total post = []
        ∧ ProcessPayment total post = ProcessPayment total2 post) := by
  refine ⟨?_, ?_, fun total e => rfl, ?_, ?_⟩
  · intro o msgs m hmem hinv
    rw [startOrderHandler_events]
    refine List.mem_append_left _ ?_
    refine List.mem_map.mpr ⟨m, hmem, ?_⟩
    simp [handlerEvent, hinv]
  · intro o m cart e hcart herr
    simp [OrderHandler.PlaceOrder] at herr
  · intro total code body h
    simp [ProcessPayment, h]
  · intro total total2 post
    exact ⟨rfl, by cases post <;> simp [ProcessPayment]⟩

/-- Witness for the amended C9 at concrete inputs: a malformed `Case`
message among the delivered messages is logged as an invalid message, and a
500 response surfaces the server error. -/
theorem error_logging_policy_witness :
    LogEvent.errorInvalidMessage (Msg.ofCase (FixtureCase 1 none 1))
        ∈ (startOrderHandler ⟨[]⟩
            [Msg.ofCart (some FixtureCart), Msg.ofCase (FixtureCase 1 none 1)]).2
    ∧ (ProcessPayment F64.nan (HTTPResult.response 500 "")).2
        = some (PaymentError.serverError 500) :=
  ⟨error_logging_policy.1 ⟨[]⟩ _ (Msg.ofCase (FixtureCase 1 none 1))
      (by simp) rfl,
    error_logging_policy.2.2.2.1 F64.nan 500 "" (by decide)⟩

/-- `Subscription` from src/main.go: the mutex-guarded mutable cart pointer
and interval. The mutex is modelled by serialising all accesses into one
event sequence; the message channel is the emitted list. `time.Duration` is
an `int64` nanosecond count, modelled as `Int`. -/
structure Subscription where
  cart : Option Cart
  interval : Int
deriving DecidableEq

/-- `Subscription.GetCart` from src/main.go. -/
def Subscription.GetCart (s : Subscription) : Option Cart := s.cart

/-- `Subscription.SetCart` from src/main.go. -/
def Subscription.SetCart (s : Subscription) (c : Option Cart) : Subscription :=
  ⟨c, s.interval⟩

/-- `Subscription.GetInterval` from src/main.go. -/
def Subscription.GetInterval (s : Subscription) : Int := s.interval

/-- `Subscription.SetInterval` from src/main.go. -/
def Subscription.SetInterval (s : Subscription) (t : Int) : Subscription :=
  ⟨s.cart, t⟩

/-- One occurrence observed by the running subscription: a ticker firing
(`<-ticker.C`), the cancellation signal (`<-ctx.Done()`), or a
mutex-serialised call to `SetCart` / `SetInterval` by the external updater. -/
inductive ProdEvent where
  | tick
  | setCart (c : Option Cart)
  | setInterval (t : Int)
  | cancel
deriving DecidableEq

/-- An event sequence with all `SetInterval` calls removed, used to state
that those calls do not affect a running loop. -/
def removeSetIntervalCalls : List ProdEvent → List ProdEvent
  | [] => []
  | .setInterval _ :: rest => removeSetIntervalCalls rest
  | e :: rest => e :: removeSetIntervalCalls rest

/-- The `for { select { ... } }` loop of `startSubscriptionTimer`: on
cancellation it returns immediately (remaining events are after the loop's
lifetime); on a tick it reads the current cart via the locked getter and
sends it on the channel; updater calls change the guarded fields. The loop
body never reads the interval. Returns the emitted messages in send order
and the loop-exit state. -/
def timerSelectLoop (s : Subscription) (evs : List ProdEvent) :
    List Msg × Subscription :=
  match evs with
  | [] => ([], s)
  | .cancel :: _ => ([], s)
  | .tick :: rest =>
    let r := timerSelectLoop s rest
    (Msg.ofCart s.GetCart :: r.1, r.2)
  | .setCart c :: rest => timerSelectLoop (s.SetCart c) rest
  | .setInterval t :: rest => timerSelectLoop (s.SetInterval t) rest

/-- The result of a `startSubscriptionTimer` run: the interval the ticker
was created with, the messages sent, and the loop-exit state. -/
structure TimerRun where
  tickerInterval : Int
  emitted : List Msg
  final : Subscription
deriving DecidableEq

/-- `startSubscriptionTimer` from src/main.go:
`ticker := time.NewTicker(s.GetInterval())` reads the interval once, at loop
start; then the select loop runs over the events. -/
def startSubscriptionTimer (s : Subscription) (evs : List ProdEvent) : TimerRun :=
  let t := s.GetInterval
  let r := timerSelectLoop s evs
  ⟨t, r.1, r.2⟩

lemma timerSelectLoop_append (s : Subscription) (evs1 evs2 : List ProdEvent)
    (h : ProdEvent.cancel ∉ evs1) :
    timerSelectLoop s (evs1 ++ evs2)
      = ((timerSelectLoop s evs1).1
            ++ (timerSelectLoop (timerSelectLoop s evs1).2 evs2).1,
          (timerSelectLoop (timerSelectLoop s evs1).2 evs2).2) := by
  induction evs1 generalizing s with
  | nil => simp [timerSelectLoop]
  | cons e rest ih =>
    have hrest : ProdEvent.cancel ∉ rest := fun hr => h (List.mem_cons_of_mem _ hr)
    cases e with
    | tick => simp [timerSelectLoop, ih _ hrest]
    | setCart c => simp [timerSelectLoop, ih _ hrest]
    | setInterval t => simp [timerSelectLoop, ih _ hrest]
    | cancel => exact absurd (List.mem_cons_self _ _) h

lemma timerSelectLoop_interval_irrelevant (evs : List ProdEvent)
    (s : Subscription) (d : Int) :
    (timerSelectLoop ⟨s.cart, d⟩ evs).1 = (timerSelectLoop s evs).1 := by
  induction evs generalizing s d with
  | nil => rfl
  | cons e rest ih =>
    cases e with
    | tick =>
      simp [timerSelectLoop, Subscription.GetCart]
      exact ih s d
    | setCart c => simpa [timerSelectLoop, Subscription.SetCart] using ih (s.SetCart c) d
    | setInterval t => simp [timerSelectLoop, Subscription.SetInterval, ih ⟨s.cart, t⟩]
    | cancel => rfl

lemma timerSelectLoop_remove_setInterval (s : Subscription) (evs : List ProdEvent) :
    (timerSelectLoop s (removeSetIntervalCalls evs)).1 = (timerSelectLoop s evs).1 := by
  induction evs generalizing s with
  | nil => rfl
  | cons e rest ih =>
    cases e with
    | tick => simp [removeSetIntervalCalls, timerSelectLoop, ih]
    | setCart c => simp [removeSetIntervalCalls, timerSelectLoop, ih]
    | cancel => simp [removeSetIntervalCalls, timerSelectLoop]
    | setInterval t =>
      have h2 : (timerSelectLoop (s.SetInterval t) rest).1 = (timerSelectLoop s rest).1 := by
        simpa [Subscription.SetInterval] using
          timerSelectLoop_interval_irrelevant rest s t
      simp [removeSetIntervalCalls, timerSelectLoop, ih, h2]

lemma timerSelectLoop_all_carts (s : Subscription) (evs : List ProdEvent) :
    ∀ m ∈ (timerSelectLoop s evs).1, ∃ c, m = Msg.ofCart c := by
  induction evs generalizing s with
  | nil => simp [timerSelectLoop]
  | cons e rest ih =>
    cases e with
    | tick =>
      intro m hm
      rcases List.mem_cons.mp (by simpa [timerSelectLoop] using hm) with h1 | h2
      · exact ⟨s.GetCart, h1⟩
      · exact ih s m h2
    | setCart c =>
      intro m hm
      exact ih _ m (by simpa [timerSelectLoop] using hm)
    | setInterval t =>
      intro m hm
      exact ih _ m (by simpa [timerSelectLoop] using hm)
    | cancel => simp [timerSelectLoop]

lemma filterMap_asCart_length (msgs : List Msg)
    (h : ∀ m ∈ msgs, ∃ c, m = Msg.ofCart c) :
    (msgs.filterMap asCart).length = msgs.length := by
  induction msgs with
  | nil => rfl
  | cons m rest ih =>
    rcases h m (List.mem_cons_self _ _) with ⟨c, rfl⟩
    simp [asCart, ih (fun x hx => h x (List.mem_cons_of_mem _ hx))]

/-- Claim C7: the interval is read exactly once, when the ticker is created
at loop start: `tickerInterval` is the subscription's interval at entry;
the emitted messages do not depend on the interval field at all, so
`SetInterval` calls during the run have no effect on that run's output; and
the new interval takes effect only on a restart, whose ticker uses it. -/
theorem interval_read_once_at_loop_start :
    ∀ (s : Subscription) (evs : List ProdEvent) (d : Int),
      (startSubscriptionTimer s evs).tickerInterval = s.GetInterval
      ∧ (timerSelectLoop ⟨s.cart, d⟩ evs).1 = (timerSelectLoop s evs).1
      ∧ (timerSelectLoop s (removeSetIntervalCalls evs)).1 = (timerSelectLoop s evs).1
      ∧ (startSubscriptionTimer (s.SetInterval d) evs).tickerInterval = d := by
  intro s evs d
  exact ⟨rfl, timerSelectLoop_interval_irrelevant evs s d,
    timerSelectLoop_remove_setInterval s evs, rfl⟩

/-- Claim C2: every message the timer loop emits is a snapshot of the cart
held at tick time: past any cancel-free prefix of events, the messages
emitted by the prefix are final — later events, including `SetCart` calls,
only extend the output; a `SetCart` immediately before a tick makes the next
emitted message carry the new cart; and a tick emits the currently held
cart. -/
theorem setCart_snapshot (s : Subscription) (evs1 evs2 : List ProdEvent)
    (h : ProdEvent.cancel ∉ evs1) :
    (startSubscriptionTimer s (evs1 ++ evs2)).emitted
        = (startSubscriptionTimer s evs1).emitted
          ++ (startSubscriptionTimer (timerSelectLoop s evs1).2 evs2).emitted
    ∧ (∀ (c : Option Cart) (rest : List ProdEvent),
        ((startSubscriptionTimer s
            (ProdEvent.setCart c :: ProdEvent.tick :: rest)).emitted).head?
          = some (Msg.ofCart c))
    ∧ (∀ rest : List ProdEvent,
        ((startSubscriptionTimer s (ProdEvent.tick :: rest)).emitted).head?
          = some (Msg.ofCart s.GetCart)) := by
  refine ⟨?_, ?_, ?_⟩
  · simp [startSubscriptionTimer, timerSelectLoop_append s evs1 evs2 h]
  · intro c rest
    simp [startSubscriptionTimer, timerSelectLoop, Subscription.SetCart,
      Subscription.GetCart]
  · intro rest
    simp [startSubscriptionTimer, timerSelectLoop]

/-- Witness for C2: one tick, then a `SetCart` and another tick — the first
message still carries the original cart, the second carries the new one. -/
theorem setCart_snapshot_witness :
    (startSubscriptionTimer ⟨some NewCart, 1⟩
        ([ProdEvent.tick] ++ [ProdEvent.setCart (some FixtureCart), ProdEvent.tick])).emitted
      = [Msg.ofCart (some NewCart), Msg.ofCart (some FixtureCart)] := by
  have h := (setCart_snapshot ⟨some NewCart, 1⟩ [ProdEvent.tick]
      [ProdEvent.setCart (some FixtureCart), ProdEvent.tick] (by decide)).1
  rw [h]
  rfl

/-- Claim C3: once the cancellation signal is observed the loop terminates
with no further sends — the emitted messages are exactly those of the
cancel-free prefix, whatever events follow the cancellation — and every
message sent before cancellation is still delivered to (and, being a cart,
processed by) the consumer. -/
theorem cancellation_stops_sends (s : Subscription) (evs1 evs2 : List ProdEvent)
    (h : ProdEvent.cancel ∉ evs1) :
    (startSubscriptionTimer s (evs1 ++ ProdEvent.cancel :: evs2)).emitted
        = (startSubscriptionTimer s evs1).emitted
    ∧ (startOrderHandler ⟨[]⟩
          ((startSubscriptionTimer s (evs1 ++ ProdEvent.cancel :: evs2)).emitted)).1.ProcessedOrders.length
        = (startSubscriptionTimer s evs1).emitted.length := by
  have hsplit := timerSelectLoop_append s evs1 (ProdEvent.cancel :: evs2) h
  have hemit : (startSubscriptionTimer s (evs1 ++ ProdEvent.cancel :: evs2)).emitted
      = (startSubscriptionTimer s evs1).emitted := by
    simp [startSubscriptionTimer, hsplit, timerSelectLoop]
  refine ⟨hemit, ?_⟩
  rw [hemit, startOrderHandler_orders]
  exact filterMap_asCart_length _ (timerSelectLoop_all_carts s evs1)

/-- Witness for C3: a tick before cancellation is emitted and processed;
the tick after the cancellation is not. -/
theorem cancellation_stops_sends_witness :
    (startSubscriptionTimer ⟨some FixtureCart, 1⟩
        ([ProdEvent.tick] ++ ProdEvent.cancel :: [ProdEvent.tick])).emitted
      = (startSubscriptionTimer ⟨some FixtureCart, 1⟩ [ProdEvent.tick]).emitted :=
  (cancellation_stops_sends ⟨some FixtureCart, 1⟩ [ProdEvent.tick] [ProdEvent.tick]
    (by decide)).1

end BeerShop
